import Mathlib

/-!
Verification of the gas-optimizer core: the lexer and fallback recursive-descent
parser (part_000) and the analysis engine over the solc-decoded tree (main.go).
Go machine state is embedded as explicit state passing; the parser's unbounded
cursor loops are embedded with a fuel parameter, and fuel sufficiency is proved
(tokens.length + 1 steps always suffice).  Go maps are embedded as association
lists in first-insertion order; where Go enumerates a map in unspecified order,
the enumeration is an explicit list parameter quantified up to permutation.
-/

/-- SLOAD gas cost constant (main.go). -/
def GasSload : Nat := 800

/-- MLOAD gas cost constant (main.go). -/
def GasMload : Nat := 3

/-- Report record (main.go); GasSavings is a Go int, always assigned non-negative
values, embedded as Nat. -/
structure Report where
  issue : String
  suggestion : String
  gasSavings : Nat
  location : String
deriving DecidableEq

/-- Token kinds (part_000); Go iota order preserved, the zero value is identifier. -/
inductive TokenType where
  | identifier
  | keyword
  | operator
  | punctuation
  | number
  | whitespace
deriving DecidableEq

structure Token where
  type : TokenType
  value : String
  line : Nat
deriving DecidableEq

def keywords : List String := ["for", "while", "if", "function", "uint", "public", "mapping", "returns"]

def operators : List String := ["=", ".", ";", "<", "++"]

def punctuation : List String := ["(", ")", "\x7b", "\x7d"]

/-- Whitespace class of strings.TrimSpace restricted to the ASCII range. -/
def isGoSpace (c : Char) : Bool :=
  c == ' ' || c == '\t' || c == '\n' || c == '\x0b' || c == '\x0c' || c == '\r'

def trimSpace (cs : List Char) : List Char :=
  ((cs.dropWhile isGoSpace).reverse.dropWhile isGoSpace).reverse

/-- strings.Split on the newline separator: n separators yield n+1 fields. -/
def splitLines : List Char → List (List Char)
  | [] => [[]]
  | c :: rest =>
    match splitLines rest with
    | [] => [[]]
    | l :: ls => if c = '\n' then [] :: l :: ls else (c :: l) :: ls

/-- Success condition of fmt.Sscanf(value, "%d", ...): an optional sign followed
by at least one decimal digit at the start of the string; Sscanf does not
require the integer to span the whole string. -/
def sscanfIntOk (value : String) : Bool :=
  match value.toList with
  | [] => false
  | c :: rest =>
    if c = '+' ∨ c = '-' then
      match rest with
      | d :: _ => d.isDigit
      | [] => false
    else c.isDigit

def classifyToken (value : String) (line : Nat) : Token :=
  if value ∈ keywords then ⟨TokenType.keyword, value, line⟩
  else if sscanfIntOk value then ⟨TokenType.number, value, line⟩
  else ⟨TokenType.identifier, value, line⟩

/-- Character loop of tokenize over one trimmed line; the pending buffer is
flushed on whitespace and on single-character operator or punctuation symbols.
Only one-character strings are ever tested against the symbol tables. -/
def tokenizeLine (lineNum : Nat) : List Char → String → List Token → List Token
  | [], current, acc =>
    if current = "" then acc else acc ++ [classifyToken current lineNum]
  | c :: rest, current, acc =>
    let s := String.singleton c
    if c = ' ' ∨ c = '\t' then
      tokenizeLine lineNum rest ("") (if current = "" then acc else acc ++ [classifyToken current lineNum])
    else if s ∈ operators ∨ s ∈ punctuation then
      let acc1 := if current = "" then acc else acc ++ [classifyToken current lineNum]
      let ty := if s ∈ punctuation then TokenType.punctuation else TokenType.operator
      tokenizeLine lineNum rest ("") (acc1 ++ [Token.mk ty s lineNum])
    else
      tokenizeLine lineNum rest (current.push c) acc

/-- tokenize (part_000).  Go iterates line bytes; for the ASCII sources modeled
here bytes and characters coincide.  Empty lines are skipped after trimming,
line numbers are 1-based positions in the original split. -/
def tokenize (source : String) : List Token :=
  ((splitLines source.toList).enum).flatMap fun p =>
    let line := trimSpace p.2
    if line = [] then [] else tokenizeLine (p.1 + 1) line ("") []

/-- Fallback-tree node (part_000): type tag, optional value, ordered children,
line. -/
inductive Node where
  | mk : String → String → List Node → Nat → Node

def Node.type : Node → String
  | .mk t _ _ _ => t

def Node.value : Node → String
  | .mk _ v _ _ => v

def Node.children : Node → List Node
  | .mk _ _ cs _ => cs

def Node.line : Node → Nat
  | .mk _ _ _ l => l

def Node.addChild : Node → Node → Node
  | .mk t v cs l, c => .mk t v (cs ++ [c]) l

/-- Parser state (part_000): token slice, cursor, and the current (last read)
token.  The Go struct also carries the source text, which Parse never reads. -/
structure ParserSt where
  tokens : List Token
  pos : Nat
  current : Token

/-- Go zero value of Token: kind 0 is identifier. -/
def zeroToken : Token := ⟨TokenType.identifier, "", 0⟩

/-- advance (part_000): reads the token under the cursor into current and moves
the cursor; a no-op once the cursor reached the end of the stream. -/
def advance (p : ParserSt) : ParserSt :=
  if h : p.pos < p.tokens.length then
    ⟨p.tokens, p.pos + 1, p.tokens.get ⟨p.pos, h⟩⟩
  else p

/-- Header-skip loop of parseLoop, parseIfStatement and parseFunction: advance
while the current value differs from the target and tokens remain.  The skip is
not depth-aware: it stops at the first occurrence of the target value. -/
def skipUntilValue (v : String) : Nat → ParserSt → Option ParserSt
  | 0, _ => none
  | fuel + 1, p =>
    if p.current.value ≠ v ∧ p.pos < p.tokens.length then
      skipUntilValue v fuel (advance p)
    else some p

/-- parseVariableAccess (part_000). -/
def parseVariableAccess (p : ParserSt) : Node × ParserSt :=
  let nd := Node.mk ("MemberAccess") p.current.value [] p.current.line
  let p1 := advance p
  if p1.current.type = TokenType.operator ∧ p1.current.value = "." then
    let p2 := advance p1
    if p2.current.type = TokenType.identifier then
      (nd.addChild (Node.mk ("Identifier") p2.current.value [] p2.current.line), advance p2)
    else (nd, p2)
  else (nd, p1)

/-- Block loop shared by parseLoop and parseIfStatement: until the first close
brace, identifier tokens become member-access children, every other token is
skipped; keywords are NOT dispatched here. -/
def blockLoop : Nat → ParserSt → List Node → Option (List Node × ParserSt)
  | 0, _, _ => none
  | fuel + 1, p, acc =>
    if p.current.value ≠ "\x7d" ∧ p.pos < p.tokens.length then
      if p.current.type = TokenType.identifier then
        blockLoop fuel (advance (parseVariableAccess p).2) (acc ++ [(parseVariableAccess p).1])
      else
        blockLoop fuel (advance p) acc
    else some (acc, p)

/-- parseLoop (part_000): requires an open paren (else the statement builder
yields no node), skips the header to the FIRST close paren, then an optional
brace block collecting identifier accesses until the FIRST close brace. -/
def parseLoop (fuel : Nat) (node : Node) (p : ParserSt) : Option (Option Node × ParserSt) :=
  if p.current.type = TokenType.punctuation ∧ p.current.value = "(" then
    match skipUntilValue (")") fuel (advance p) with
    | none => none
    | some p1 =>
      if (advance p1).current.type = TokenType.punctuation ∧ (advance p1).current.value = "\x7b" then
        match blockLoop fuel (advance (advance p1)) [] with
        | none => none
        | some r =>
          some (some (node.addChild (Node.mk ("Block") ("") r.1 (advance (advance p1)).current.line)),
                advance r.2)
      else some (some node, advance p1)
  else some (none, p)

def parseForLoop (fuel : Nat) (p : ParserSt) : Option (Option Node × ParserSt) :=
  parseLoop fuel (Node.mk ("ForStatement") ("") [] p.current.line) (advance p)

def parseWhileLoop (fuel : Nat) (p : ParserSt) : Option (Option Node × ParserSt) :=
  parseLoop fuel (Node.mk ("WhileStatement") ("") [] p.current.line) (advance p)

/-- parseIfStatement (part_000) duplicates the body of parseLoop verbatim
(require an open paren, skip to the first close paren, optional brace block
collecting identifier accesses); the embedding reuses parseLoop with an
IfStatement node. -/
def parseIfStatement (fuel : Nat) (p : ParserSt) : Option (Option Node × ParserSt) :=
  parseLoop fuel (Node.mk ("IfStatement") ("") [] p.current.line) (advance p)

def appendOptNode (acc : List Node) : Option Node → List Node
  | none => acc
  | some nd => acc ++ [nd]

/-- Function-body block loop of parseFunction: unlike blockLoop it additionally
dispatches on nested for, while and if keywords. -/
def funcBlockLoop : Nat → ParserSt → List Node → Option (List Node × ParserSt)
  | 0, _, _ => none
  | fuel + 1, p, acc =>
    if p.current.value ≠ "\x7d" ∧ p.pos < p.tokens.length then
      if p.current.type = TokenType.keyword then
        if p.current.value = "for" then
          (parseForLoop fuel p).bind fun r => funcBlockLoop fuel (advance r.2) (appendOptNode acc r.1)
        else if p.current.value = "while" then
          (parseWhileLoop fuel p).bind fun r => funcBlockLoop fuel (advance r.2) (appendOptNode acc r.1)
        else if p.current.value = "if" then
          (parseIfStatement fuel p).bind fun r => funcBlockLoop fuel (advance r.2) (appendOptNode acc r.1)
        else funcBlockLoop fuel (advance p) acc
      else if p.current.type = TokenType.identifier then
        funcBlockLoop fuel (advance (parseVariableAccess p).2) (acc ++ [(parseVariableAccess p).1])
      else funcBlockLoop fuel (advance p) acc
    else some (acc, p)

/-- Name step of parseFunction: the node carries the line of the function
keyword; an identifier after it becomes the function name. -/
def parseFunctionName (p : ParserSt) : Node × ParserSt :=
  if (advance p).current.type = TokenType.identifier then
    (Node.mk ("FunctionDeclaration") (advance p).current.value [] p.current.line, advance (advance p))
  else (Node.mk ("FunctionDeclaration") ("") [] p.current.line, advance p)

/-- Parameter-list step of parseFunction: a present open paren is skipped
token-wise to the first close paren, which is then consumed. -/
def parseFunctionParams (fuel : Nat) (p1 : ParserSt) : Option ParserSt :=
  if p1.current.type = TokenType.punctuation ∧ p1.current.value = "(" then
    (skipUntilValue (")") fuel (advance p1)).map advance
  else some p1

/-- Remainder of parseFunction after the name: token-wise skipped parameter
list, then an optional brace block built by funcBlockLoop. -/
def parseFunctionRest (fuel : Nat) (nd : Node) (p1 : ParserSt) : Option (Node × ParserSt) :=
  match parseFunctionParams fuel p1 with
  | none => none
  | some p2 =>
    if p2.current.type = TokenType.punctuation ∧ p2.current.value = "\x7b" then
      match funcBlockLoop fuel (advance p2) [] with
      | none => none
      | some r =>
        some (nd.addChild (Node.mk ("Block") ("") r.1 (advance p2).current.line), advance r.2)
    else some (nd, p2)

/-- parseFunction (part_000): optional name, token-wise skipped parameter list,
optional brace block built by funcBlockLoop.  Always yields a node. -/
def parseFunction (fuel : Nat) (p : ParserSt) : Option (Node × ParserSt) :=
  parseFunctionRest fuel (parseFunctionName p).1 (parseFunctionName p).2

/-- Top-level loop of Parse: dispatch on keywords, skip everything else. -/
def parseSteps : Nat → ParserSt → List Node → Option (List Node)
  | 0, _, _ => none
  | fuel + 1, p, acc =>
    if p.pos < p.tokens.length then
      if p.current.type = TokenType.keyword then
        if p.current.value = "for" then
          (parseForLoop fuel p).bind fun r => parseSteps fuel r.2 (appendOptNode acc r.1)
        else if p.current.value = "while" then
          (parseWhileLoop fuel p).bind fun r => parseSteps fuel r.2 (appendOptNode acc r.1)
        else if p.current.value = "if" then
          (parseIfStatement fuel p).bind fun r => parseSteps fuel r.2 (appendOptNode acc r.1)
        else if p.current.value = "function" then
          (parseFunction fuel p).bind fun r => parseSteps fuel r.2 (acc ++ [r.1])
        else parseSteps fuel (advance p) acc
      else parseSteps fuel (advance p) acc
    else some acc

def initState (ts : List Token) : ParserSt := ⟨ts, 0, zeroToken⟩

/-- Run of the Parse loop with fuel tokens.length + 1; since every iteration
strictly advances the cursor this fuel always suffices (parseRun never yields
none, proved below). -/
def parseRun (ts : List Token) : Option (List Node) :=
  parseSteps (ts.length + 1) (advance (initState ts)) []

/-- Parse (part_000): root node over the accumulated top-level statements. -/
def Parse (ts : List Token) : Node :=
  Node.mk ("Root") ("") ((parseRun ts).getD []) 0

/-- Decoded solc AST node (SolcASTNode in main.go), restricted to the fields the
analysis passes read: NodeType, Name, Src, Nodes, Body, Statements, Expression,
InitialValue, TypeName, IndexExpression, BaseExpression, LeftExpression,
RightExpression, Operator, Value.  (TypeDescriptions, Parameters,
ReturnParameters, IsLValue and ReferencedDecl are decoded but never read by any
pass.) -/
inductive SolcASTNode where
  | mk : (nodeType name src : String) → (nodes : List SolcASTNode) →
         (body : Option SolcASTNode) → (statements : List SolcASTNode) →
         (expression initialValue typeName : Option SolcASTNode) →
         (indexExpression baseExpression : Option SolcASTNode) →
         (leftExpression rightExpression : Option SolcASTNode) →
         (operator value : String) → SolcASTNode

def SolcASTNode.nodeType : SolcASTNode → String
  | .mk nt _ _ _ _ _ _ _ _ _ _ _ _ _ _ => nt

def SolcASTNode.name : SolcASTNode → String
  | .mk _ nm _ _ _ _ _ _ _ _ _ _ _ _ _ => nm

def SolcASTNode.src : SolcASTNode → String
  | .mk _ _ s _ _ _ _ _ _ _ _ _ _ _ _ => s

def SolcASTNode.nodes : SolcASTNode → List SolcASTNode
  | .mk _ _ _ ns _ _ _ _ _ _ _ _ _ _ _ => ns

def SolcASTNode.body : SolcASTNode → Option SolcASTNode
  | .mk _ _ _ _ b _ _ _ _ _ _ _ _ _ _ => b

def SolcASTNode.statements : SolcASTNode → List SolcASTNode
  | .mk _ _ _ _ _ ss _ _ _ _ _ _ _ _ _ => ss

def SolcASTNode.expression : SolcASTNode → Option SolcASTNode
  | .mk _ _ _ _ _ _ e _ _ _ _ _ _ _ _ => e

def SolcASTNode.initialValue : SolcASTNode → Option SolcASTNode
  | .mk _ _ _ _ _ _ _ iv _ _ _ _ _ _ _ => iv

def SolcASTNode.typeName : SolcASTNode → Option SolcASTNode
  | .mk _ _ _ _ _ _ _ _ tn _ _ _ _ _ _ => tn

def SolcASTNode.indexExpression : SolcASTNode → Option SolcASTNode
  | .mk _ _ _ _ _ _ _ _ _ ie _ _ _ _ _ => ie

def SolcASTNode.baseExpression : SolcASTNode → Option SolcASTNode
  | .mk _ _ _ _ _ _ _ _ _ _ be _ _ _ _ => be

def SolcASTNode.leftExpression : SolcASTNode → Option SolcASTNode
  | .mk _ _ _ _ _ _ _ _ _ _ _ le _ _ _ => le

def SolcASTNode.rightExpression : SolcASTNode → Option SolcASTNode
  | .mk _ _ _ _ _ _ _ _ _ _ _ _ re _ _ => re

def SolcASTNode.operator : SolcASTNode → String
  | .mk _ _ _ _ _ _ _ _ _ _ _ _ _ op _ => op

def SolcASTNode.value : SolcASTNode → String
  | .mk _ _ _ _ _ _ _ _ _ _ _ _ _ _ v => v

mutual

/-- walkSolcAST (main.go) applies a callback in pre-order: the node itself, then
the Nodes children, then Body, then Statements.  The embedding returns the
visit sequence; each pass flat-maps its per-node action over it, which
reproduces the Go append order. -/
def walkSolcAST : SolcASTNode → List SolcASTNode
  | .mk nt nm src nodes body stmts e iv tn ie be le re op v =>
    SolcASTNode.mk nt nm src nodes body stmts e iv tn ie be le re op v ::
      (walkSolcList nodes ++ (walkSolcOpt body ++ walkSolcList stmts))

def walkSolcList : List SolcASTNode → List SolcASTNode
  | [] => []
  | n :: rest => walkSolcAST n ++ walkSolcList rest

def walkSolcOpt : Option SolcASTNode → List SolcASTNode
  | none => []
  | some n => walkSolcAST n

end

/-- Go map increment m[k]++ on an association list kept in first-insertion
order. -/
def bump : List (String × Nat) → String → List (String × Nat)
  | [], k => [(k, 1)]
  | e :: rest, k => if e.1 = k then (e.1, e.2 + 1) :: rest else e :: bump rest k

mutual

/-- collectStorageReadsSolc (main.go): counts declaration statements whose
initializer is an index access, keyed base[index]; recurses into Statements
then Body. -/
def collectStorageReadsSolc : SolcASTNode → List (String × Nat) → List (String × Nat)
  | .mk nt _ _ _ body stmts _ iv _ _ _ _ _ _ _, sv =>
    let sv1 :=
      if nt = "VariableDeclarationStatement" then
        match iv with
        | some ivn =>
          if ivn.nodeType = "IndexAccess" then
            match ivn.baseExpression, ivn.indexExpression with
            | some b, some ix => bump sv (b.name ++ "[" ++ ix.name ++ "]")
            | _, _ => sv
          else sv
        | none => sv
      else sv
    collectStorageReadsOpt body (collectStorageReadsList stmts sv1)

def collectStorageReadsList : List SolcASTNode → List (String × Nat) → List (String × Nat)
  | [], sv => sv
  | n :: rest, sv => collectStorageReadsList rest (collectStorageReadsSolc n sv)

def collectStorageReadsOpt : Option SolcASTNode → List (String × Nat) → List (String × Nat)
  | none, sv => sv
  | some n, sv => collectStorageReadsSolc n sv

end

/-- generateLoopReport (main.go).  Go iterates the storageVars map in
unspecified order; the association-list argument stands for one enumeration of
that map. -/
def generateLoopReport (storageVars : List (String × Nat)) (location : String) : List Report :=
  storageVars.filterMap fun e =>
    if 1 < e.2 then
      some ⟨"Variable \x27" ++ e.1 ++ "\x27 read " ++ toString e.2 ++ " times in loop",
            "Cache \x27" ++ e.1 ++ "\x27 in memory before loop",
            (e.2 - 1) * (GasSload - GasMload), location⟩
    else none

/-- Per-node action of checkLoopsForStorageReads (main.go): on loop nodes,
collect storage reads from the body (empty map when the body is absent) and
emit the loop report. -/
def loopCheckNode (n : SolcASTNode) : List Report :=
  if n.nodeType = "ForStatement" ∨ n.nodeType = "WhileStatement" then
    generateLoopReport (collectStorageReadsOpt n.body []) n.src
  else []

def checkLoopsForStorageReads (ast : SolcASTNode) : List Report :=
  (walkSolcAST ast).flatMap loopCheckNode

/-- Per-node action of checkInefficientTypes (main.go). -/
def typeCheckNode (n : SolcASTNode) : List Report :=
  if n.nodeType = "VariableDeclaration" then
    match n.typeName with
    | some t =>
      if t.name = "uint8" ∨ t.name = "uint16" ∨ t.name = "uint32" then
        [⟨"Inefficient type \x27" ++ t.name ++ "\x27 used for variable \x27" ++ n.name ++ "\x27",
          "Use \x27uint256\x27 to avoid packing overhead unless tightly packed in a struct",
          200, n.src⟩]
      else []
    | none => []
  else []

def checkInefficientTypes (ast : SolcASTNode) : List Report :=
  (walkSolcAST ast).flatMap typeCheckNode

mutual

/-- collectExpressions (main.go): keys binary operations whose immediate
operands render as a bare name or literal by the string "left op right"
(left prefers Name over Value, right prefers Value over Name); recurses into
left, right, declaration initializers, return expressions and Statements. -/
def collectExpressions : SolcASTNode → List (String × Nat) → List (String × Nat)
  | .mk nt _ _ _ _ stmts e iv _ _ _ le re op _, em =>
    let em1 :=
      if nt = "BinaryOperation" then
        match le, re with
        | some l, some r =>
          let leftVal := if l.name ≠ "" then l.name else if l.value ≠ "" then l.value else ""
          let rightVal := if r.value ≠ "" then r.value else if r.name ≠ "" then r.name else ""
          if leftVal ≠ "" ∧ rightVal ≠ "" then
            bump em (leftVal ++ " " ++ op ++ " " ++ rightVal)
          else em
        | _, _ => em
      else em
    let em2 := collectExpressionsOpt le em1
    let em3 := collectExpressionsOpt re em2
    let em4 := if nt = "VariableDeclarationStatement" then collectExpressionsOpt iv em3 else em3
    let em5 := if nt = "Return" then collectExpressionsOpt e em4 else em4
    collectExpressionsList stmts em5

def collectExpressionsList : List SolcASTNode → List (String × Nat) → List (String × Nat)
  | [], em => em
  | n :: rest, em => collectExpressionsList rest (collectExpressions n em)

def collectExpressionsOpt : Option SolcASTNode → List (String × Nat) → List (String × Nat)
  | none, em => em
  | some n, em => collectExpressions n em

end

/-- Report-emission loop inside checkRedundantOperations (main.go); the
association-list argument stands for one enumeration of the Go exprMap. -/
def redundantReports (exprMap : List (String × Nat)) (src : String) : List Report :=
  exprMap.filterMap fun e =>
    if 1 < e.2 then
      some ⟨"Expression \x27" ++ e.1 ++ "\x27 computed " ++ toString e.2 ++ " times",
            "Cache the result in a local variable", e.2 * 50, src⟩
    else none

/-- Per-node action of checkRedundantOperations (main.go). -/
def redundantCheckNode (n : SolcASTNode) : List Report :=
  if n.nodeType = "FunctionDefinition" then
    match n.body with
    | some b => redundantReports (collectExpressions b []) n.src
    | none => []
  else []

def checkRedundantOperations (ast : SolcASTNode) : List Report :=
  (walkSolcAST ast).flatMap redundantCheckNode

/-- analyzeSolcAST (main.go): the three passes run in order, appending to the
engine report list. -/
def analyzeSolcReports (ast : SolcASTNode) : List Report :=
  checkLoopsForStorageReads ast ++ (checkInefficientTypes ast ++ checkRedundantOperations ast)

mutual

/-- collectStorageReadsCustom (main.go): for each child, member-access nodes
with at least one child are keyed value.firstChildValue, then the child is
recursed into. -/
def collectStorageReadsCustom : Node → List (String × Nat) → List (String × Nat)
  | .mk _ _ children _, sv => collectCustomList children sv

def collectCustomList : List Node → List (String × Nat) → List (String × Nat)
  | [], sv => sv
  | c :: rest, sv =>
    let sv1 :=
      match c with
      | .mk ty v (k :: _) _ => if ty = "MemberAccess" then bump sv (v ++ "." ++ k.value) else sv
      | _ => sv
    collectCustomList rest (collectStorageReadsCustom c sv1)

end

/-- analyzeCustomAST (main.go): only DIRECT children of the root are examined
for loop node types. -/
def analyzeCustomReports (ast : Node) : List Report :=
  ast.children.flatMap fun node =>
    if node.type = "ForStatement" ∨ node.type = "WhileStatement" then
      generateLoopReport (collectStorageReadsCustom node []) ("line " ++ toString node.line)
    else []

/-- The dynamically typed AST field of GasOptimizer: either the fallback tree or
the decoded solc tree. -/
inductive ASTValue where
  | custom : Node → ASTValue
  | solcTree : SolcASTNode → ASTValue

structure GasOptimizer where
  source : String
  ast : ASTValue
  reports : List Report

/-- Analyze (main.go): dispatch on the concrete tree shape and append the
reports of the matching passes. -/
def Analyze (g : GasOptimizer) : GasOptimizer :=
  match g.ast with
  | .custom n => ⟨g.source, g.ast, g.reports ++ analyzeCustomReports n⟩
  | .solcTree n => ⟨g.source, g.ast, g.reports ++ analyzeSolcReports n⟩

/-- Outcome of the external solc invocation inside NewGasOptimizer, abstracting
the process run, the regex search for the JSON document in the combined output,
and json.Unmarshal. -/
inductive ToolResult where
  | execError : String → ToolResult
  | outputNoJSON : String → ToolResult
  | decodeError : String → String → ToolResult
  | decoded : SolcASTNode → ToolResult

/-- Control flow of NewGasOptimizer (main.go) after the source file has been
read: a process failure falls back to the custom parser and succeeds; a missing
or undecodable JSON document is returned as an error to the caller. -/
def NewGasOptimizer (source : String) (solcRun : ToolResult) : Except String GasOptimizer :=
  match solcRun with
  | .execError _ => .ok ⟨source, .custom (Parse (tokenize source)), []⟩
  | .outputNoJSON out => .error ("no JSON found in solc output: " ++ out)
  | .decodeError msg out => .error ("failed to parse AST: " ++ msg ++ ", output: " ++ out)
  | .decoded ast => .ok ⟨source, .solcTree ast, []⟩

/-- State extension: the tokens are unchanged, the cursor did not move backwards,
and a cursor within bounds stays within bounds. -/
def StepsTo (p q : ParserSt) : Prop :=
  q.tokens = p.tokens ∧ p.pos ≤ q.pos ∧ (p.pos ≤ p.tokens.length → q.pos ≤ q.tokens.length)

def kwTok (v : String) : Token := ⟨TokenType.keyword, v, 1⟩

def idTok (v : String) : Token := ⟨TokenType.identifier, v, 1⟩

def puTok (v : String) : Token := ⟨TokenType.punctuation, v, 1⟩

def opTok (v : String) : Token := ⟨TokenType.operator, v, 1⟩

/-- Token stream of "for ( ( a ) < b ) { x . y }": a loop header containing a
nested parenthesis, followed by a brace block with one member access. -/
def nestedParenTokens : List Token :=
  [kwTok ("for"), puTok ("("), puTok ("("), idTok ("a"), puTok (")"), opTok ("<"),
   idTok ("b"), puTok (")"), puTok ("\x7b"), idTok ("x"), opTok ("."), idTok ("y"), puTok ("\x7d")]

/-- Token stream of "while ( c ) { for ( i ) { a . b } }": a loop whose block
contains a nested for loop. -/
def nestedLoopTokens : List Token :=
  [kwTok ("while"), puTok ("("), idTok ("c"), puTok (")"), puTok ("\x7b"),
   kwTok ("for"), puTok ("("), idTok ("i"), puTok (")"), puTok ("\x7b"),
   idTok ("a"), opTok ("."), idTok ("b"), puTok ("\x7d"), puTok ("\x7d")]

/-- Token stream of "function f ( ) { for ( i ) { a . b } }": a function whose
block contains a nested for loop. -/
def nestedFuncTokens : List Token :=
  [kwTok ("function"), idTok ("f"), puTok ("("), puTok (")"), puTok ("\x7b"),
   kwTok ("for"), puTok ("("), idTok ("i"), puTok (")"), puTok ("\x7b"),
   idTok ("a"), opTok ("."), idTok ("b"), puTok ("\x7d"), puTok ("\x7d")]

def solcIdent (nm : String) : SolcASTNode :=
  .mk ("Identifier") nm ("") [] none [] none none none none none none none ("") ("")

def solcLiteralNode (v : String) : SolcASTNode :=
  .mk ("Literal") ("") ("") [] none [] none none none none none none none ("") v

def solcIndexAccess (b ix : SolcASTNode) : SolcASTNode :=
  .mk ("IndexAccess") ("") ("") [] none [] none none none (some ix) (some b) none none ("") ("")

def solcVarDeclStmt (iv : SolcASTNode) : SolcASTNode :=
  .mk ("VariableDeclarationStatement") ("") ("") [] none [] none (some iv) none none none none none ("") ("")

def solcBlock (stmts : List SolcASTNode) : SolcASTNode :=
  .mk ("Block") ("") ("") [] none stmts none none none none none none none ("") ("")

def solcForLoop (src : String) (body : SolcASTNode) : SolcASTNode :=
  .mk ("ForStatement") ("") src [] (some body) [] none none none none none none none ("") ("")

def solcFunctionDef (nm src : String) (body : SolcASTNode) : SolcASTNode :=
  .mk ("FunctionDefinition") nm src [] (some body) [] none none none none none none none ("") ("")

def solcBinaryOp (l : SolcASTNode) (o : String) (r : SolcASTNode) : SolcASTNode :=
  .mk ("BinaryOperation") ("") ("") [] none [] none none none none none (some l) (some r) o ("")

def solcReturn (e : SolcASTNode) : SolcASTNode :=
  .mk ("Return") ("") ("") [] none [] (some e) none none none none none none ("") ("")

def solcElemType (ty : String) : SolcASTNode :=
  .mk ("ElementaryTypeName") ty ("") [] none [] none none none none none none none ("") ("")

def solcVarDeclaration (nm ty src : String) : SolcASTNode :=
  .mk ("VariableDeclaration") nm src [] none [] none none (some (solcElemType ty)) none none none none ("") ("")

/-- External-shape loop body with two declarations initialized from data[i]
and one from data[j]. -/
def sampleLoopBody : SolcASTNode :=
  solcBlock [solcVarDeclStmt (solcIndexAccess (solcIdent ("data")) (solcIdent ("i"))),
             solcVarDeclStmt (solcIndexAccess (solcIdent ("data")) (solcIdent ("i"))),
             solcVarDeclStmt (solcIndexAccess (solcIdent ("data")) (solcIdent ("j")))]

/-- External-shape function whose body contains a for loop: the loop is NOT a
direct child of the root. -/
def sampleNestedSolc : SolcASTNode :=
  solcFunctionDef ("expensiveLoop") ("10:1:0") (solcBlock [solcForLoop ("57:3:0") sampleLoopBody])

/-- Function body computing a * 2 twice with identical immediate form. -/
def sampleRedundantBody : SolcASTNode :=
  solcBlock [solcVarDeclStmt (solcBinaryOp (solcIdent ("a")) ("*") (solcLiteralNode ("2"))),
             solcReturn (solcBinaryOp (solcIdent ("a")) ("*") (solcLiteralNode ("2")))]

def sampleRedundantFn : SolcASTNode :=
  solcFunctionDef ("redundantCalc") ("320:140:0") sampleRedundantBody

/-- Function body computing a * 2 once and 2 * a once (commuted operands). -/
def sampleCommutedBody : SolcASTNode :=
  solcBlock [solcVarDeclStmt (solcBinaryOp (solcIdent ("a")) ("*") (solcLiteralNode ("2"))),
             solcReturn (solcBinaryOp (solcLiteralNode ("2")) ("*") (solcIdent ("a")))]

def sampleCommutedFn : SolcASTNode :=
  solcFunctionDef ("redundantCalc") ("320:140:0") sampleCommutedBody

/-- Fallback-shape member access x.y. -/
def customAccessXY : Node := Node.mk ("MemberAccess") ("x") [Node.mk ("Identifier") ("y") [] 8] 8

/-- Fallback-shape for loop whose block reads x.y twice. -/
def customNestedFor : Node :=
  Node.mk ("ForStatement") ("") [Node.mk ("Block") ("") [customAccessXY, customAccessXY] 8] 7

/-- Fallback tree whose loop is nested inside a function body, not a direct
child of the root. -/
def customNestedTree : Node :=
  Node.mk ("Root") ("")
    [Node.mk ("FunctionDeclaration") ("f") [Node.mk ("Block") ("") [customNestedFor] 7] 6] 0

/-- Fallback tree with the same loop as a direct child of the root. -/
def customTopTree : Node := Node.mk ("Root") ("") [customNestedFor] 0

/-- Two enumerations of the same two-key storage map. -/
def permEntriesA : List (String × Nat) := [("a[i]", 2), ("b[j]", 2)]

def permEntriesB : List (String × Nat) := [("b[j]", 2), ("a[i]", 2)]

/-- Concrete parser state used by witnesses: cursor on the identifier of the
two-token stream "a }". -/
def witnessBlockState : ParserSt :=
  ⟨[idTok ("a"), puTok ("\x7d")], 1, idTok ("a")⟩

theorem advance_tokens (p : ParserSt) : (advance p).tokens = p.tokens := by
  unfold advance; split <;> rfl

theorem advance_pos_le (p : ParserSt) : p.pos ≤ (advance p).pos := by
  unfold advance
  split
  · dsimp only; omega
  · exact Nat.le_refl _

theorem advance_pos_of_lt {p : ParserSt} (h : p.pos < p.tokens.length) :
    (advance p).pos = p.pos + 1 := by
  unfold advance; rw [dif_pos h]

theorem advance_pos_bounded {p : ParserSt} (h : p.pos ≤ p.tokens.length) :
    (advance p).pos ≤ (advance p).tokens.length := by
  unfold advance
  split
  · rename_i h'; dsimp only; omega
  · exact h

theorem stepsTo_refl (p : ParserSt) : StepsTo p p := ⟨rfl, le_refl _, fun h => h⟩

theorem stepsTo_trans {p q r : ParserSt} (h1 : StepsTo p q) (h2 : StepsTo q r) : StepsTo p r := by
  obtain ⟨t1, l1, b1⟩ := h1
  obtain ⟨t2, l2, b2⟩ := h2
  exact ⟨t2.trans t1, l1.trans l2, fun h => b2 (b1 h)⟩

theorem advance_stepsTo (p : ParserSt) : StepsTo p (advance p) :=
  ⟨advance_tokens p, advance_pos_le p, fun h => advance_pos_bounded h⟩

theorem stepsTo_len {p q : ParserSt} (h : StepsTo p q) :
    q.tokens.length = p.tokens.length := by rw [h.1]

theorem skipUntilValue_stepsTo (v : String) :
    ∀ (fuel : Nat) (p q : ParserSt), skipUntilValue v fuel p = some q → StepsTo p q := by
  intro fuel
  induction fuel with
  | zero => intro p q h; simp [skipUntilValue] at h
  | succ n ih =>
    intro p q h
    rw [skipUntilValue] at h
    split at h
    · exact stepsTo_trans (advance_stepsTo p) (ih _ _ h)
    · cases h; exact stepsTo_refl p

theorem skipUntilValue_isSome (v : String) :
    ∀ (fuel : Nat) (p : ParserSt), p.tokens.length - p.pos < fuel →
      (skipUntilValue v fuel p).isSome := by
  intro fuel
  induction fuel with
  | zero => intro p h; omega
  | succ n ih =>
    intro p h
    rw [skipUntilValue]
    split
    · rename_i hc
      apply ih
      have h1 := advance_pos_of_lt hc.2
      have h2 := congrArg List.length (advance_tokens p)
      omega
    · rfl

theorem parseVariableAccess_stepsTo (p : ParserSt) :
    StepsTo (advance p) (parseVariableAccess p).2 := by
  unfold parseVariableAccess
  dsimp only
  split
  · split
    · exact stepsTo_trans (advance_stepsTo _) (advance_stepsTo _)
    · exact advance_stepsTo _
  · exact stepsTo_refl _

theorem parseVariableAccess_type (p : ParserSt) :
    (parseVariableAccess p).1.type = "MemberAccess" := by
  unfold parseVariableAccess
  dsimp only
  split
  · split <;> rfl
  · rfl

theorem blockLoop_stepsTo :
    ∀ (fuel : Nat) (p : ParserSt) (acc kids : List Node) (q : ParserSt),
      blockLoop fuel p acc = some (kids, q) → StepsTo p q := by
  intro fuel
  induction fuel with
  | zero => intro p acc kids q h; simp [blockLoop] at h
  | succ n ih =>
    intro p acc kids q h
    rw [blockLoop] at h
    split at h
    · split at h
      · exact stepsTo_trans
          (stepsTo_trans (advance_stepsTo p) (parseVariableAccess_stepsTo p))
          (stepsTo_trans (advance_stepsTo _) (ih _ _ _ _ h))
      · exact stepsTo_trans (advance_stepsTo p) (ih _ _ _ _ h)
    · cases h; exact stepsTo_refl p

theorem blockLoop_isSome :
    ∀ (fuel : Nat) (p : ParserSt) (acc : List Node),
      p.tokens.length - p.pos < fuel → p.pos ≤ p.tokens.length →
      (blockLoop fuel p acc).isSome := by
  intro fuel
  induction fuel with
  | zero => intro p acc h hp; omega
  | succ n ih =>
    intro p acc hf hp
    rw [blockLoop]
    split
    · rename_i hc
      split
      · have hA : StepsTo p (parseVariableAccess p).2 :=
          stepsTo_trans (advance_stepsTo p) (parseVariableAccess_stepsTo p)
        have hB : StepsTo (parseVariableAccess p).2 (advance (parseVariableAccess p).2) :=
          advance_stepsTo _
        have e1 := stepsTo_len hA
        have e2 := stepsTo_len hB
        have l1 : (advance p).pos = p.pos + 1 := advance_pos_of_lt hc.2
        have l2 : (advance p).pos ≤ (parseVariableAccess p).2.pos :=
          (parseVariableAccess_stepsTo p).2.1
        have l3 := hB.2.1
        have m1 : (advance (parseVariableAccess p).2).tokens.length = p.tokens.length := by
          rw [e2, e1]
        apply ih
        · omega
        · exact hB.2.2 (hA.2.2 hp)
      · have l1 : (advance p).pos = p.pos + 1 := advance_pos_of_lt hc.2
        have e1 := congrArg List.length (advance_tokens p)
        apply ih
        · omega
        · have := advance_pos_bounded hp
          omega
    · rfl

theorem parseLoop_stepsTo (fuel : Nat) (nd : Node) (p : ParserSt) (r : Option Node) (q : ParserSt)
    (h : parseLoop fuel nd p = some (r, q)) : StepsTo p q := by
  rw [parseLoop] at h
  split at h
  · split at h
    · exact absurd h (by simp)
    · rename_i p1 hskip
      have h1 : StepsTo p p1 :=
        stepsTo_trans (advance_stepsTo p) (skipUntilValue_stepsTo _ _ _ _ hskip)
      split at h
      · split at h
        · exact absurd h (by simp)
        · rename_i rr hblock
          have h2 := blockLoop_stepsTo _ _ _ _ _ hblock
          cases h
          exact stepsTo_trans h1 (stepsTo_trans (advance_stepsTo _)
            (stepsTo_trans (advance_stepsTo _) (stepsTo_trans h2 (advance_stepsTo _))))
      · cases h
        exact stepsTo_trans h1 (advance_stepsTo _)
  · cases h
    exact stepsTo_refl p

theorem parseLoop_isSome (fuel : Nat) (nd : Node) (p : ParserSt)
    (hf : p.tokens.length - p.pos < fuel) (hp : p.pos ≤ p.tokens.length) :
    (parseLoop fuel nd p).isSome := by
  rw [parseLoop]
  split
  · have hs : (skipUntilValue (")") fuel (advance p)).isSome := by
      apply skipUntilValue_isSome
      have l1 := advance_pos_le p
      have e1 := congrArg List.length (advance_tokens p)
      omega
    obtain ⟨p1, hp1⟩ := Option.isSome_iff_exists.mp hs
    rw [hp1]
    have hst : StepsTo p p1 :=
      stepsTo_trans (advance_stepsTo p) (skipUntilValue_stepsTo _ _ _ _ hp1)
    have e1 := stepsTo_len hst
    have l1 := hst.2.1
    have b1 := hst.2.2 hp
    split
    · rename_i heq
      exact Option.noConfusion heq
    · rename_i p2 heq
      injection heq with he
      subst he
      split
      · have hA : StepsTo p1 (advance (advance p1)) :=
          stepsTo_trans (advance_stepsTo _) (advance_stepsTo _)
        have e2 := stepsTo_len hA
        have l2 := hA.2.1
        have b2 := hA.2.2 b1
        have hb : (blockLoop fuel (advance (advance p1)) []).isSome := by
          apply blockLoop_isSome
          · omega
          · exact b2
        obtain ⟨rr, hrr⟩ := Option.isSome_iff_exists.mp hb
        rw [hrr]
        rfl
      · rfl
  · rfl

theorem parseForLoop_stepsTo (fuel : Nat) (p : ParserSt) (r : Option Node) (q : ParserSt)
    (h : parseForLoop fuel p = some (r, q)) : StepsTo (advance p) q :=
  parseLoop_stepsTo _ _ _ _ _ h

theorem parseWhileLoop_stepsTo (fuel : Nat) (p : ParserSt) (r : Option Node) (q : ParserSt)
    (h : parseWhileLoop fuel p = some (r, q)) : StepsTo (advance p) q :=
  parseLoop_stepsTo _ _ _ _ _ h

theorem parseIfStatement_stepsTo (fuel : Nat) (p : ParserSt) (r : Option Node) (q : ParserSt)
    (h : parseIfStatement fuel p = some (r, q)) : StepsTo (advance p) q :=
  parseLoop_stepsTo _ _ _ _ _ h

theorem parseForLoop_isSome (fuel : Nat) (p : ParserSt)
    (hlt : p.pos < p.tokens.length) (hf : p.tokens.length - p.pos ≤ fuel) :
    (parseForLoop fuel p).isSome := by
  apply parseLoop_isSome
  · have l1 := advance_pos_of_lt hlt
    have e1 := congrArg List.length (advance_tokens p)
    omega
  · exact advance_pos_bounded (Nat.le_of_lt hlt)

theorem parseWhileLoop_isSome (fuel : Nat) (p : ParserSt)
    (hlt : p.pos < p.tokens.length) (hf : p.tokens.length - p.pos ≤ fuel) :
    (parseWhileLoop fuel p).isSome := by
  apply parseLoop_isSome
  · have l1 := advance_pos_of_lt hlt
    have e1 := congrArg List.length (advance_tokens p)
    omega
  · exact advance_pos_bounded (Nat.le_of_lt hlt)

theorem parseIfStatement_isSome (fuel : Nat) (p : ParserSt)
    (hlt : p.pos < p.tokens.length) (hf : p.tokens.length - p.pos ≤ fuel) :
    (parseIfStatement fuel p).isSome := by
  apply parseLoop_isSome
  · have l1 := advance_pos_of_lt hlt
    have e1 := congrArg List.length (advance_tokens p)
    omega
  · exact advance_pos_bounded (Nat.le_of_lt hlt)

theorem funcBlockLoop_stepsTo :
    ∀ (fuel : Nat) (p : ParserSt) (acc kids : List Node) (q : ParserSt),
      funcBlockLoop fuel p acc = some (kids, q) → StepsTo p q := by
  intro fuel
  induction fuel with
  | zero => intro p acc kids q h; simp [funcBlockLoop] at h
  | succ n ih =>
    intro p acc kids q h
    rw [funcBlockLoop] at h
    split at h
    · split at h
      · split at h
        · cases hfor : parseForLoop n p with
          | none => rw [hfor] at h; simp at h
          | some r =>
            rw [hfor] at h
            exact stepsTo_trans (advance_stepsTo p)
              (stepsTo_trans (parseForLoop_stepsTo _ _ _ _ hfor)
                (stepsTo_trans (advance_stepsTo _) (ih _ _ _ _ h)))
        · split at h
          · cases hw : parseWhileLoop n p with
            | none => rw [hw] at h; simp at h
            | some r =>
              rw [hw] at h
              exact stepsTo_trans (advance_stepsTo p)
                (stepsTo_trans (parseWhileLoop_stepsTo _ _ _ _ hw)
                  (stepsTo_trans (advance_stepsTo _) (ih _ _ _ _ h)))
          · split at h
            · cases hi : parseIfStatement n p with
              | none => rw [hi] at h; simp at h
              | some r =>
                rw [hi] at h
                exact stepsTo_trans (advance_stepsTo p)
                  (stepsTo_trans (parseIfStatement_stepsTo _ _ _ _ hi)
                    (stepsTo_trans (advance_stepsTo _) (ih _ _ _ _ h)))
            · exact stepsTo_trans (advance_stepsTo p) (ih _ _ _ _ h)
      · split at h
        · exact stepsTo_trans
            (stepsTo_trans (advance_stepsTo p) (parseVariableAccess_stepsTo p))
            (stepsTo_trans (advance_stepsTo _) (ih _ _ _ _ h))
        · exact stepsTo_trans (advance_stepsTo p) (ih _ _ _ _ h)
    · cases h; exact stepsTo_refl p

theorem funcBlockLoop_isSome :
    ∀ (fuel : Nat) (p : ParserSt) (acc : List Node),
      p.tokens.length - p.pos < fuel → p.pos ≤ p.tokens.length →
      (funcBlockLoop fuel p acc).isSome := by
  intro fuel
  induction fuel with
  | zero => intro p acc h hp; omega
  | succ n ih =>
    intro p acc hf hp
    rw [funcBlockLoop]
    split
    · rename_i hc
      split
      · split
        · have hfor : (parseForLoop n p).isSome := parseForLoop_isSome n p hc.2 (by omega)
          obtain ⟨r, hr⟩ := Option.isSome_iff_exists.mp hfor
          rw [hr]
          show (funcBlockLoop n (advance r.2) (appendOptNode acc r.1)).isSome = true
          have hA : StepsTo (advance p) r.2 := parseForLoop_stepsTo _ _ _ _ hr
          have hB : StepsTo r.2 (advance r.2) := advance_stepsTo _
          have e0 := congrArg List.length (advance_tokens p)
          have e1 := stepsTo_len hA
          have e2 := stepsTo_len hB
          have l0 : (advance p).pos = p.pos + 1 := advance_pos_of_lt hc.2
          have l1 := hA.2.1
          have l2 := hB.2.1
          have b2 : (advance r.2).pos ≤ (advance r.2).tokens.length :=
            hB.2.2 (hA.2.2 (advance_pos_bounded hp))
          apply ih
          · omega
          · exact b2
        · split
          · have hw : (parseWhileLoop n p).isSome := parseWhileLoop_isSome n p hc.2 (by omega)
            obtain ⟨r, hr⟩ := Option.isSome_iff_exists.mp hw
            rw [hr]
            show (funcBlockLoop n (advance r.2) (appendOptNode acc r.1)).isSome = true
            have hA : StepsTo (advance p) r.2 := parseWhileLoop_stepsTo _ _ _ _ hr
            have hB : StepsTo r.2 (advance r.2) := advance_stepsTo _
            have e0 := congrArg List.length (advance_tokens p)
            have e1 := stepsTo_len hA
            have e2 := stepsTo_len hB
            have l0 : (advance p).pos = p.pos + 1 := advance_pos_of_lt hc.2
            have l1 := hA.2.1
            have l2 := hB.2.1
            have b2 : (advance r.2).pos ≤ (advance r.2).tokens.length :=
              hB.2.2 (hA.2.2 (advance_pos_bounded hp))
            apply ih
            · omega
            · exact b2
          · split
            · have hi : (parseIfStatement n p).isSome :=
                parseIfStatement_isSome n p hc.2 (by omega)
              obtain ⟨r, hr⟩ := Option.isSome_iff_exists.mp hi
              rw [hr]
              show (funcBlockLoop n (advance r.2) (appendOptNode acc r.1)).isSome = true
              have hA : StepsTo (advance p) r.2 := parseIfStatement_stepsTo _ _ _ _ hr
              have hB : StepsTo r.2 (advance r.2) := advance_stepsTo _
              have e0 := congrArg List.length (advance_tokens p)
              have e1 := stepsTo_len hA
              have e2 := stepsTo_len hB
              have l0 : (advance p).pos = p.pos + 1 := advance_pos_of_lt hc.2
              have l1 := hA.2.1
              have l2 := hB.2.1
              have b2 : (advance r.2).pos ≤ (advance r.2).tokens.length :=
                hB.2.2 (hA.2.2 (advance_pos_bounded hp))
              apply ih
              · omega
              · exact b2
            · have l0 : (advance p).pos = p.pos + 1 := advance_pos_of_lt hc.2
              have e0 := congrArg List.length (advance_tokens p)
              apply ih
              · omega
              · exact advance_pos_bounded hp
      · split
        · have hA : StepsTo p (parseVariableAccess p).2 :=
            stepsTo_trans (advance_stepsTo p) (parseVariableAccess_stepsTo p)
          have hB : StepsTo (parseVariableAccess p).2 (advance (parseVariableAccess p).2) :=
            advance_stepsTo _
          have e1 := stepsTo_len hA
          have e2 := stepsTo_len hB
          have l1 : (advance p).pos = p.pos + 1 := advance_pos_of_lt hc.2
          have l2 : (advance p).pos ≤ (parseVariableAccess p).2.pos :=
            (parseVariableAccess_stepsTo p).2.1
          have l3 := hB.2.1
          apply ih
          · omega
          · exact hB.2.2 (hA.2.2 hp)
        · have l0 : (advance p).pos = p.pos + 1 := advance_pos_of_lt hc.2
          have e0 := congrArg List.length (advance_tokens p)
          apply ih
          · omega
          · exact advance_pos_bounded hp
    · rfl

theorem parseFunctionName_stepsTo (p : ParserSt) : StepsTo (advance p) (parseFunctionName p).2 := by
  unfold parseFunctionName
  split
  · dsimp only
    exact advance_stepsTo _
  · dsimp only
    exact stepsTo_refl _

theorem parseFunctionParams_stepsTo (fuel : Nat) (p1 p2 : ParserSt)
    (h : parseFunctionParams fuel p1 = some p2) : StepsTo p1 p2 := by
  rw [parseFunctionParams] at h
  split at h
  · obtain ⟨ps, hps, hadv⟩ := Option.map_eq_some'.mp h
    subst hadv
    exact stepsTo_trans (advance_stepsTo p1)
      (stepsTo_trans (skipUntilValue_stepsTo _ _ _ _ hps) (advance_stepsTo ps))
  · cases h
    exact stepsTo_refl p1

theorem parseFunctionParams_isSome (fuel : Nat) (p1 : ParserSt)
    (hf : p1.tokens.length - p1.pos < fuel) :
    (parseFunctionParams fuel p1).isSome := by
  rw [parseFunctionParams]
  split
  · have hs : (skipUntilValue (")") fuel (advance p1)).isSome := by
      apply skipUntilValue_isSome
      have l1 := advance_pos_le p1
      have e1 := congrArg List.length (advance_tokens p1)
      omega
    obtain ⟨ps, hps⟩ := Option.isSome_iff_exists.mp hs
    rw [hps]
    rfl
  · rfl

theorem parseFunctionRest_stepsTo (fuel : Nat) (nd nd2 : Node) (p1 q : ParserSt)
    (h : parseFunctionRest fuel nd p1 = some (nd2, q)) : StepsTo p1 q := by
  rw [parseFunctionRest] at h
  split at h
  · exact Option.noConfusion h
  · rename_i p2 heq
    have h12 : StepsTo p1 p2 := parseFunctionParams_stepsTo _ _ _ heq
    split at h
    · split at h
      · exact Option.noConfusion h
      · rename_i r hblock
        cases h
        exact stepsTo_trans h12 (stepsTo_trans (advance_stepsTo _)
          (stepsTo_trans (funcBlockLoop_stepsTo _ _ _ _ _ hblock) (advance_stepsTo _)))
    · cases h
      exact h12

theorem parseFunctionRest_isSome (fuel : Nat) (nd : Node) (p1 : ParserSt)
    (hf : p1.tokens.length - p1.pos < fuel) (hp : p1.pos ≤ p1.tokens.length) :
    (parseFunctionRest fuel nd p1).isSome := by
  rw [parseFunctionRest]
  have hpar : (parseFunctionParams fuel p1).isSome := parseFunctionParams_isSome fuel p1 hf
  obtain ⟨p2, hp2⟩ := Option.isSome_iff_exists.mp hpar
  rw [hp2]
  split
  · rename_i heq
    exact Option.noConfusion heq
  · rename_i p2' heq
    injection heq with he
    subst he
    have h12 : StepsTo p1 p2 := parseFunctionParams_stepsTo _ _ _ hp2
    have e1 := stepsTo_len h12
    have l1 := h12.2.1
    have b1 := h12.2.2 hp
    split
    · have hA : StepsTo p2 (advance p2) := advance_stepsTo _
      have e2 := stepsTo_len hA
      have l2 := hA.2.1
      have b2 := hA.2.2 b1
      have hb : (funcBlockLoop fuel (advance p2) []).isSome := by
        apply funcBlockLoop_isSome
        · omega
        · exact b2
      obtain ⟨r, hr⟩ := Option.isSome_iff_exists.mp hb
      rw [hr]
      rfl
    · rfl

theorem parseFunction_stepsTo (fuel : Nat) (p : ParserSt) (nd : Node) (q : ParserSt)
    (h : parseFunction fuel p = some (nd, q)) : StepsTo (advance p) q :=
  stepsTo_trans (parseFunctionName_stepsTo p) (parseFunctionRest_stepsTo _ _ _ _ _ h)

theorem parseFunction_isSome (fuel : Nat) (p : ParserSt)
    (hlt : p.pos < p.tokens.length) (hf : p.tokens.length - p.pos ≤ fuel) :
    (parseFunction fuel p).isSome := by
  apply parseFunctionRest_isSome
  · have hA : StepsTo (advance p) (parseFunctionName p).2 := parseFunctionName_stepsTo p
    have e0 := congrArg List.length (advance_tokens p)
    have e1 := stepsTo_len hA
    have l0 : (advance p).pos = p.pos + 1 := advance_pos_of_lt hlt
    have l1 := hA.2.1
    omega
  · exact (parseFunctionName_stepsTo p).2.2 (advance_pos_bounded (Nat.le_of_lt hlt))

theorem parseSteps_isSome :
    ∀ (fuel : Nat) (p : ParserSt) (acc : List Node),
      p.tokens.length - p.pos < fuel → p.pos ≤ p.tokens.length →
      (parseSteps fuel p acc).isSome := by
  intro fuel
  induction fuel with
  | zero => intro p acc h hp; omega
  | succ n ih =>
    intro p acc hf hp
    rw [parseSteps]
    split
    · rename_i hlt
      split
      · split
        · have hfor : (parseForLoop n p).isSome := parseForLoop_isSome n p hlt (by omega)
          obtain ⟨r, hr⟩ := Option.isSome_iff_exists.mp hfor
          rw [hr]
          show (parseSteps n r.2 (appendOptNode acc r.1)).isSome = true
          have hA : StepsTo (advance p) r.2 := parseForLoop_stepsTo _ _ _ _ hr
          have e0 := congrArg List.length (advance_tokens p)
          have e1 := stepsTo_len hA
          have l0 : (advance p).pos = p.pos + 1 := advance_pos_of_lt hlt
          have l1 := hA.2.1
          apply ih
          · omega
          · exact hA.2.2 (advance_pos_bounded hp)
        · split
          · have hw : (parseWhileLoop n p).isSome := parseWhileLoop_isSome n p hlt (by omega)
            obtain ⟨r, hr⟩ := Option.isSome_iff_exists.mp hw
            rw [hr]
            show (parseSteps n r.2 (appendOptNode acc r.1)).isSome = true
            have hA : StepsTo (advance p) r.2 := parseWhileLoop_stepsTo _ _ _ _ hr
            have e0 := congrArg List.length (advance_tokens p)
            have e1 := stepsTo_len hA
            have l0 : (advance p).pos = p.pos + 1 := advance_pos_of_lt hlt
            have l1 := hA.2.1
            apply ih
            · omega
            · exact hA.2.2 (advance_pos_bounded hp)
          · split
            · have hi : (parseIfStatement n p).isSome := parseIfStatement_isSome n p hlt (by omega)
              obtain ⟨r, hr⟩ := Option.isSome_iff_exists.mp hi
              rw [hr]
              show (parseSteps n r.2 (appendOptNode acc r.1)).isSome = true
              have hA : StepsTo (advance p) r.2 := parseIfStatement_stepsTo _ _ _ _ hr
              have e0 := congrArg List.length (advance_tokens p)
              have e1 := stepsTo_len hA
              have l0 : (advance p).pos = p.pos + 1 := advance_pos_of_lt hlt
              have l1 := hA.2.1
              apply ih
              · omega
              · exact hA.2.2 (advance_pos_bounded hp)
            · split
              · have hfn : (parseFunction n p).isSome := parseFunction_isSome n p hlt (by omega)
                obtain ⟨r, hr⟩ := Option.isSome_iff_exists.mp hfn
                rw [hr]
                show (parseSteps n r.2 (acc ++ [r.1])).isSome = true
                have hA : StepsTo (advance p) r.2 := parseFunction_stepsTo _ _ _ _ hr
                have e0 := congrArg List.length (advance_tokens p)
                have e1 := stepsTo_len hA
                have l0 : (advance p).pos = p.pos + 1 := advance_pos_of_lt hlt
                have l1 := hA.2.1
                apply ih
                · omega
                · exact hA.2.2 (advance_pos_bounded hp)
              · have l0 : (advance p).pos = p.pos + 1 := advance_pos_of_lt hlt
                have e0 := congrArg List.length (advance_tokens p)
                apply ih
                · omega
                · exact advance_pos_bounded hp
      · have l0 : (advance p).pos = p.pos + 1 := advance_pos_of_lt hlt
        have e0 := congrArg List.length (advance_tokens p)
        apply ih
        · omega
        · exact advance_pos_bounded hp
    · rfl

theorem parseRun_isSome (ts : List Token) : (parseRun ts).isSome := by
  rw [parseRun]
  apply parseSteps_isSome
  · have e0 : (advance (initState ts)).tokens = ts := advance_tokens (initState ts)
    have l0 := advance_pos_le (initState ts)
    have := congrArg List.length e0
    omega
  · exact advance_pos_bounded (Nat.zero_le _)

theorem generateLoopReport_mem {sv : List (String × Nat)} {loc : String} {r : Report}
    (hr : r ∈ generateLoopReport sv loc) :
    ∃ k n, (k, n) ∈ sv ∧ 1 < n ∧ r.gasSavings = (n - 1) * (GasSload - GasMload) := by
  obtain ⟨e, he, heq⟩ := List.mem_filterMap.mp hr
  by_cases h2 : 1 < e.2
  · rw [if_pos h2] at heq
    injection heq with h3
    subst h3
    exact ⟨e.1, e.2, he, h2, rfl⟩
  · rw [if_neg h2] at heq
    exact Option.noConfusion heq

theorem redundantReports_mem {em : List (String × Nat)} {src : String} {r : Report}
    (hr : r ∈ redundantReports em src) :
    ∃ k n, (k, n) ∈ em ∧ 1 < n ∧ r.gasSavings = n * 50 := by
  obtain ⟨e, he, heq⟩ := List.mem_filterMap.mp hr
  by_cases h2 : 1 < e.2
  · rw [if_pos h2] at heq
    injection heq with h3
    subst h3
    exact ⟨e.1, e.2, he, h2, rfl⟩
  · rw [if_neg h2] at heq
    exact Option.noConfusion heq

theorem generateLoopReport_ge {sv : List (String × Nat)} {loc : String} {r : Report}
    (hr : r ∈ generateLoopReport sv loc) : 797 ≤ r.gasSavings := by
  obtain ⟨k, n, _, h2, h3⟩ := generateLoopReport_mem hr
  have h4 : r.gasSavings = (n - 1) * 797 := h3
  rw [h4]
  omega

theorem loopCheckNode_ge {n : SolcASTNode} {r : Report}
    (hr : r ∈ loopCheckNode n) : 797 ≤ r.gasSavings := by
  unfold loopCheckNode at hr
  split at hr
  · exact generateLoopReport_ge hr
  · exact absurd hr (List.not_mem_nil r)

theorem typeCheckNode_eq {n : SolcASTNode} {r : Report}
    (hr : r ∈ typeCheckNode n) : r.gasSavings = 200 := by
  unfold typeCheckNode at hr
  split at hr
  · split at hr
    · split at hr
      · rw [List.mem_singleton.mp hr]
      · exact absurd hr (List.not_mem_nil r)
    · exact absurd hr (List.not_mem_nil r)
  · exact absurd hr (List.not_mem_nil r)

theorem redundantCheckNode_ge {n : SolcASTNode} {r : Report}
    (hr : r ∈ redundantCheckNode n) : 100 ≤ r.gasSavings := by
  unfold redundantCheckNode at hr
  split at hr
  · split at hr
    · obtain ⟨k, m, _, h2, h3⟩ := redundantReports_mem hr
      have h4 : r.gasSavings = m * 50 := h3
      rw [h4]
      omega
    · exact absurd hr (List.not_mem_nil r)
  · exact absurd hr (List.not_mem_nil r)

/-- Claim C1, counterexample: when the external tool runs but its combined
output contains no locatable JSON tree document, NewGasOptimizer surfaces an
error to the caller instead of falling back to the Lexer+Parser. -/
theorem newGasOptimizer_unlocatable_output_is_error :
    NewGasOptimizer ("contract C \x7b \x7d") (ToolResult.outputNoJSON ("garbage")) =
      Except.error ("no JSON found in solc output: garbage") := rfl

/-- Claim C1, amended: construction recovers through the fallback Lexer+Parser
over the same source text only when the external tool could not be invoked or
exited with failure; when the output contains no locatable tree document or the
document fails to decode, construction returns an error to the caller. -/
theorem newGasOptimizer_fallback_only_on_exec_failure :
    (∀ (source msg : String), NewGasOptimizer source (ToolResult.execError msg) =
        Except.ok ⟨source, ASTValue.custom (Parse (tokenize source)), []⟩) ∧
    (∀ (source out : String), ∃ e, NewGasOptimizer source (ToolResult.outputNoJSON out) =
        Except.error e) ∧
    (∀ (source msg out : String), ∃ e, NewGasOptimizer source (ToolResult.decodeError msg out) =
        Except.error e) :=
  ⟨fun _ _ => rfl, fun _ _ => ⟨_, rfl⟩, fun _ _ _ => ⟨_, rfl⟩⟩

/-- Claim C2, code evaluated at the failing input: on the token stream of
for ( ( a ) < b ) { x . y } the header skip ends at the FIRST close paren (the
one nested inside the header), so the brace block is never recognized and the
ForStatement is built with no children at all; depth-aware matching would have
attached a Block with the x.y access. -/
theorem parseLoop_header_skip_stops_at_first_close_paren :
    parseRun nestedParenTokens = some [Node.mk ("ForStatement") ("") [] 1] := rfl

/-- Claim C3, counterexample: a fallback tree whose only loop is nested inside a
function body produces NO report from analyzeCustomAST, even though the loop
body reads x.y twice and would be reported were the loop analyzed. -/
theorem analyzeCustom_ignores_nested_loop :
    analyzeCustomReports customNestedTree = [] ∧
    collectStorageReadsCustom customNestedFor [] = [("x.y", 2)] := ⟨rfl, rfl⟩

/-- Claim C3, amended: on the solc shape, every node reached by the walk
contributes its loop reports to the pass output, and a loop nested inside a
function body produces its report; on the FALLBACK shape, only direct children
of the root are examined: a tree with no loop-typed direct child yields no
reports, whatever is nested below. -/
theorem loop_pass_depth_by_tree_shape :
    (∀ (ast n : SolcASTNode), n ∈ walkSolcAST ast → ∀ r ∈ loopCheckNode n,
        r ∈ checkLoopsForStorageReads ast) ∧
    (checkLoopsForStorageReads sampleNestedSolc =
      [⟨"Variable \x27data[i]\x27 read 2 times in loop",
        "Cache \x27data[i]\x27 in memory before loop", 797, "57:3:0"⟩]) ∧
    (∀ ast : Node, (∀ c ∈ ast.children, c.type ≠ "ForStatement" ∧ c.type ≠ "WhileStatement") →
        analyzeCustomReports ast = []) := by
  refine ⟨fun ast n hn r hr => List.mem_flatMap.mpr ⟨n, hn, hr⟩, rfl, ?_⟩
  intro ast hc
  unfold analyzeCustomReports
  rw [List.flatMap_eq_nil_iff]
  intro c hc'
  obtain ⟨h1, h2⟩ := hc c hc'
  rw [if_neg]
  intro h
  cases h with
  | inl h => exact h1 h
  | inr h => exact h2 h

/-- Claim C3 witness: the nested solc loop report is in the pass output, and the
custom pass yields nothing on the concrete nested fallback tree. -/
theorem loop_pass_depth_by_tree_shape_witness :
    (⟨"Variable \x27data[i]\x27 read 2 times in loop",
      "Cache \x27data[i]\x27 in memory before loop", 797, "57:3:0"⟩ : Report) ∈
        checkLoopsForStorageReads sampleNestedSolc ∧
    analyzeCustomReports customNestedTree = [] := by
  constructor
  · apply loop_pass_depth_by_tree_shape.1 sampleNestedSolc (solcForLoop ("57:3:0") sampleLoopBody)
    · exact List.Mem.tail _ (List.Mem.tail _ (List.Mem.head _))
    · exact List.Mem.head _
  · apply loop_pass_depth_by_tree_shape.2.2 customNestedTree
    intro c hc
    rw [List.mem_singleton.mp hc]
    exact ⟨by decide, by decide⟩

/-- Claim C4, code evaluated at the failing input: the lexer tests only single
characters against the operator table, so the two-character operator listed in
that table can never match; i++ lexes as ONE Identifier token "i++" (absorbed
into the adjacent identifier), and a freestanding ++ lexes as an Identifier,
not an Operator. -/
theorem tokenize_splits_double_plus :
    ("++") ∈ operators ∧
    tokenize ("i++;") = [⟨TokenType.identifier, "i++", 1⟩, ⟨TokenType.operator, ";", 1⟩] ∧
    tokenize ("i ++ ;") =
      [⟨TokenType.identifier, "i", 1⟩, ⟨TokenType.identifier, "++", 1⟩,
       ⟨TokenType.operator, ";", 1⟩] :=
  ⟨by decide, rfl, rfl⟩

/-- Claim C5: a loop body (external shape) with two declarations initialized
from data[i] and one from data[j] counts data[i] twice and data[j] once; every
enumeration of that map emits exactly one report, keyed to data[i], with
savings 797 = (2-1)*(800-3) and none for data[j]; in general every emitted loop
report has savings (n-1)*(STORAGE_READ_COST - MEMORY_READ_COST) for some key
counted n > 1 times. -/
theorem loop_storage_read_report_savings :
    collectStorageReadsSolc sampleLoopBody [] = [("data[i]", 2), ("data[j]", 1)] ∧
    (∀ ord : List (String × Nat), ord.Perm [("data[i]", 2), ("data[j]", 1)] →
      generateLoopReport ord ("183:125:0") =
        [⟨"Variable \x27data[i]\x27 read 2 times in loop",
          "Cache \x27data[i]\x27 in memory before loop", 797, "183:125:0"⟩]) ∧
    (∀ (sv : List (String × Nat)) (loc : String) (r : Report), r ∈ generateLoopReport sv loc →
      ∃ k n, (k, n) ∈ sv ∧ 1 < n ∧ r.gasSavings = (n - 1) * (GasSload - GasMload)) := by
  refine ⟨rfl, ?_, fun sv loc r hr => generateLoopReport_mem hr⟩
  intro ord h
  have hp : (generateLoopReport ord ("183:125:0")).Perm
      (generateLoopReport [("data[i]", 2), ("data[j]", 1)] ("183:125:0")) := h.filterMap _
  have h2 : generateLoopReport [("data[i]", 2), ("data[j]", 1)] ("183:125:0") =
      [⟨"Variable \x27data[i]\x27 read 2 times in loop",
        "Cache \x27data[i]\x27 in memory before loop", 797, "183:125:0"⟩] := rfl
  rw [h2] at hp
  exact List.perm_singleton.mp hp

/-- Claim C5 witness at the concrete map and a concrete member report. -/
theorem loop_storage_read_report_savings_witness :
    generateLoopReport [("data[i]", 2), ("data[j]", 1)] ("183:125:0") =
      [⟨"Variable \x27data[i]\x27 read 2 times in loop",
        "Cache \x27data[i]\x27 in memory before loop", 797, "183:125:0"⟩] ∧
    (∃ k n, (k, n) ∈ [(("data[i]" : String), (2 : Nat)), ("data[j]", 1)] ∧ 1 < n ∧
      (⟨"Variable \x27data[i]\x27 read 2 times in loop",
        "Cache \x27data[i]\x27 in memory before loop", 797, "183:125:0"⟩ : Report).gasSavings =
        (n - 1) * (GasSload - GasMload)) :=
  ⟨loop_storage_read_report_savings.2.1 _ (List.Perm.refl _),
   loop_storage_read_report_savings.2.2 _ ("183:125:0") _ (by decide)⟩

/-- Claim C6: the redundant-sub-expression pass keys binary expressions with
name-or-literal immediate operands by the exact string left-op-right and emits
savings n*50 for a key counted n > 1 times; a body with a * 2 twice yields one
report with savings 100, a body with a * 2 and 2 * a yields none (shallow
textual equality, operand order significant). -/
theorem redundant_expression_textual_keying :
    (∀ (em : List (String × Nat)) (src : String) (r : Report), r ∈ redundantReports em src →
      ∃ k n, (k, n) ∈ em ∧ 1 < n ∧ r.gasSavings = n * 50) ∧
    collectExpressions sampleRedundantBody [] = [("a * 2", 2)] ∧
    checkRedundantOperations sampleRedundantFn =
      [⟨"Expression \x27a * 2\x27 computed 2 times", "Cache the result in a local variable",
        100, "320:140:0"⟩] ∧
    collectExpressions sampleCommutedBody [] = [("a * 2", 1), ("2 * a", 1)] ∧
    checkRedundantOperations sampleCommutedFn = [] :=
  ⟨fun _ _ _ hr => redundantReports_mem hr, rfl, rfl, rfl, rfl⟩

/-- Claim C6 witness at a concrete expression map. -/
theorem redundant_expression_textual_keying_witness :
    ∃ k n, (k, n) ∈ [(("a * 2" : String), (2 : Nat))] ∧ 1 < n ∧
      (⟨"Expression \x27a * 2\x27 computed 2 times", "Cache the result in a local variable",
        100, "320:140:0"⟩ : Report).gasSavings = n * 50 :=
  redundant_expression_textual_keying.1 _ ("320:140:0") _ (by decide)

/-- Claim C7, counterexample: inside the block of a while statement the nested
for keyword is NOT dispatched; on while ( c ) { for ( i ) { a . b } } the while
block contains only member accesses (the header identifier i and a.b) and no
ForStatement child at all. -/
theorem loop_block_skips_nested_keyword :
    parseRun nestedLoopTokens =
      some [Node.mk ("WhileStatement") ("")
        [Node.mk ("Block") ("")
          [Node.mk ("MemberAccess") ("i") [] 1,
           Node.mk ("MemberAccess") ("a") [Node.mk ("Identifier") ("b") [] 1] 1] 1] 1] := rfl

/-- Claim C7, amended: only function-body blocks dispatch nested control-flow
keywords; the block loop used by loop and conditional builders only ever
appends member-access children (never a loop or conditional statement), while a
for keyword inside a function body is recursively built and appended. -/
theorem nested_dispatch_only_in_function_blocks :
    (∀ (fuel : Nat) (p : ParserSt) (acc : List Node),
      (∀ k ∈ acc, k.type = "MemberAccess") →
      ∀ (kids : List Node) (q : ParserSt), blockLoop fuel p acc = some (kids, q) →
      ∀ k ∈ kids, k.type = "MemberAccess") ∧
    parseRun nestedFuncTokens =
      some [Node.mk ("FunctionDeclaration") ("f")
        [Node.mk ("Block") ("")
          [Node.mk ("ForStatement") ("")
            [Node.mk ("Block") ("")
              [Node.mk ("MemberAccess") ("a") [Node.mk ("Identifier") ("b") [] 1] 1] 1] 1] 1] 1] := by
  refine ⟨?_, rfl⟩
  intro fuel
  induction fuel with
  | zero => intro p acc hacc kids q h; simp [blockLoop] at h
  | succ n ih =>
    intro p acc hacc kids q h
    rw [blockLoop] at h
    split at h
    · split at h
      · refine ih _ _ ?_ _ _ h
        intro k hk
        rcases List.mem_append.mp hk with hk1 | hk2
        · exact hacc k hk1
        · rw [List.mem_singleton.mp hk2]
          exact parseVariableAccess_type p
      · exact ih _ _ hacc _ _ h
    · cases h
      exact hacc

/-- Claim C7 witness: a concrete run of the loop-block builder yields only
member-access children. -/
theorem nested_dispatch_only_in_function_blocks_witness :
    (Node.mk ("MemberAccess") ("a") [] 1).type = "MemberAccess" :=
  nested_dispatch_only_in_function_blocks.1 3 witnessBlockState []
    (fun k hk => absurd hk (List.not_mem_nil k))
    [Node.mk ("MemberAccess") ("a") [] 1] ⟨[idTok ("a"), puTok ("\x7d")], 2, puTok ("\x7d")⟩ rfl
    (Node.mk ("MemberAccess") ("a") [] 1) (List.mem_singleton.mpr rfl)

/-- Claim C8: for every token stream, including malformed ones, the Parse loop
terminates (tokens.length + 1 iterations always complete the parse) and the
cursor strictly increases on every step taken before the end of the stream. -/
theorem parse_always_terminates (ts : List Token) :
    (parseRun ts).isSome = true ∧
    (∀ st : ParserSt, st.pos < st.tokens.length → (advance st).pos = st.pos + 1) :=
  ⟨parseRun_isSome ts, fun _ h => advance_pos_of_lt h⟩

/-- Claim C8 witness on a one-token stream. -/
theorem parse_always_terminates_witness :
    (parseRun [idTok ("a")]).isSome = true ∧
    (advance (initState [idTok ("a")])).pos = (initState [idTok ("a")]).pos + 1 :=
  ⟨(parse_always_terminates [idTok ("a")]).1,
   (parse_always_terminates [idTok ("a")]).2 (initState [idTok ("a")]) (by decide)⟩

/-- Claim C9, counterexample: the same storage map enumerated in two orders (Go
map iteration order is unspecified) makes generateLoopReport emit the same two
reports in different list orders, so report order is not reproducible when one
loop yields several qualifying keys. -/
theorem report_order_depends_on_map_order :
    permEntriesA.Perm permEntriesB ∧
    generateLoopReport permEntriesA ("L") ≠ generateLoopReport permEntriesB ("L") :=
  ⟨by decide, by decide⟩

/-- Claim C9, amended: each pass is a deterministic function of the tree and of
the map enumeration orders; enumerations of the same map produce report batches
equal up to permutation (the multiset of reports is determined by the tree),
and the batch is order-independent whenever it holds at most one report. -/
theorem passes_deterministic_up_to_map_order :
    (∀ (e₁ e₂ : List (String × Nat)) (loc : String), e₁.Perm e₂ →
      (generateLoopReport e₁ loc).Perm (generateLoopReport e₂ loc)) ∧
    (∀ (e₁ e₂ : List (String × Nat)) (src : String), e₁.Perm e₂ →
      (redundantReports e₁ src).Perm (redundantReports e₂ src)) ∧
    (∀ (e ord : List (String × Nat)) (loc : String), ord.Perm e →
      (generateLoopReport e loc).length ≤ 1 →
      generateLoopReport ord loc = generateLoopReport e loc) := by
  refine ⟨fun e₁ e₂ loc h => h.filterMap _, fun e₁ e₂ src h => h.filterMap _, ?_⟩
  intro e ord loc hperm hlen
  have hp : (generateLoopReport ord loc).Perm (generateLoopReport e loc) := hperm.filterMap _
  cases hl : generateLoopReport e loc with
  | nil =>
    rw [hl] at hp
    exact hp.eq_nil
  | cons a tl =>
    rw [hl] at hp hlen
    cases tl with
    | nil => exact List.perm_singleton.mp hp
    | cons b tb =>
      exfalso
      simp only [List.length_cons] at hlen
      omega

/-- Claim C9 witness at concrete enumerations. -/
theorem passes_deterministic_up_to_map_order_witness :
    (generateLoopReport permEntriesA ("L")).Perm (generateLoopReport permEntriesB ("L")) ∧
    (redundantReports [(("a * 2" : String), (2 : Nat))] ("S")).Perm
      (redundantReports [("a * 2", 2)] ("S")) ∧
    generateLoopReport [(("x" : String), (2 : Nat))] ("L") =
      generateLoopReport [("x", 2)] ("L") :=
  ⟨passes_deterministic_up_to_map_order.1 _ _ _ (by decide),
   passes_deterministic_up_to_map_order.2.1 _ _ _ (List.Perm.refl _),
   passes_deterministic_up_to_map_order.2.2 _ _ _ (List.Perm.refl _) (by decide)⟩

/-- Claim C10: every report any pass ever appends has strictly positive savings:
loop storage-read reports carry at least 797, type-width reports exactly 200,
redundant-expression reports at least 100; both engine entry points only ever
append positive-savings reports. -/
theorem all_reports_positive_savings :
    (∀ (sv : List (String × Nat)) (loc : String) (r : Report),
      r ∈ generateLoopReport sv loc → 797 ≤ r.gasSavings) ∧
    (∀ (ast : SolcASTNode) (r : Report), r ∈ checkInefficientTypes ast → r.gasSavings = 200) ∧
    (∀ (ast : SolcASTNode) (r : Report), r ∈ checkRedundantOperations ast → 100 ≤ r.gasSavings) ∧
    (∀ (ast : Node) (r : Report), r ∈ analyzeCustomReports ast → 797 ≤ r.gasSavings) ∧
    (∀ (ast : SolcASTNode) (r : Report), r ∈ analyzeSolcReports ast → 0 < r.gasSavings) := by
  have hA : ∀ (sv : List (String × Nat)) (loc : String) (r : Report),
      r ∈ generateLoopReport sv loc → 797 ≤ r.gasSavings :=
    fun sv loc r hr => generateLoopReport_ge hr
  have hB : ∀ (ast : SolcASTNode) (r : Report),
      r ∈ checkInefficientTypes ast → r.gasSavings = 200 := by
    intro ast r hr
    obtain ⟨n, _, hrn⟩ := List.mem_flatMap.mp hr
    exact typeCheckNode_eq hrn
  have hC : ∀ (ast : SolcASTNode) (r : Report),
      r ∈ checkRedundantOperations ast → 100 ≤ r.gasSavings := by
    intro ast r hr
    obtain ⟨n, _, hrn⟩ := List.mem_flatMap.mp hr
    exact redundantCheckNode_ge hrn
  refine ⟨hA, hB, hC, ?_, ?_⟩
  · intro ast r hr
    obtain ⟨node, _, hrn⟩ := List.mem_flatMap.mp hr
    split at hrn
    · exact generateLoopReport_ge hrn
    · exact absurd hrn (List.not_mem_nil r)
  · intro ast r hr
    rcases List.mem_append.mp hr with h1 | h23
    · obtain ⟨n, _, hrn⟩ := List.mem_flatMap.mp h1
      have := loopCheckNode_ge hrn
      omega
    · rcases List.mem_append.mp h23 with h2 | h3
      · have := hB ast r h2
        omega
      · have := hC ast r h3
        omega

/-- Claim C10 witness: one concrete report per pass. -/
theorem all_reports_positive_savings_witness :
    797 ≤ (⟨"Variable \x27k\x27 read 2 times in loop",
      "Cache \x27k\x27 in memory before loop", 797, "L"⟩ : Report).gasSavings ∧
    (⟨"Inefficient type \x27uint8\x27 used for variable \x27smallNum\x27",
      "Use \x27uint256\x27 to avoid packing overhead unless tightly packed in a struct",
      200, "87:21:0"⟩ : Report).gasSavings = 200 ∧
    100 ≤ (⟨"Expression \x27a * 2\x27 computed 2 times",
      "Cache the result in a local variable", 100, "320:140:0"⟩ : Report).gasSavings ∧
    797 ≤ (⟨"Variable \x27x.y\x27 read 2 times in loop",
      "Cache \x27x.y\x27 in memory before loop", 797, "line 7"⟩ : Report).gasSavings ∧
    0 < (⟨"Variable \x27data[i]\x27 read 2 times in loop",
      "Cache \x27data[i]\x27 in memory before loop", 797, "57:3:0"⟩ : Report).gasSavings :=
  ⟨all_reports_positive_savings.1 [(("k" : String), (2 : Nat))] ("L") _ (by decide),
   all_reports_positive_savings.2.1 (solcVarDeclaration ("smallNum") ("uint8") ("87:21:0")) _
     (by decide),
   all_reports_positive_savings.2.2.1 sampleRedundantFn _ (by decide),
   all_reports_positive_savings.2.2.2.1 customTopTree _ (by decide),
   all_reports_positive_savings.2.2.2.2 sampleNestedSolc _ (by decide)⟩
